import Mathlib

/-!
# gmonit: lifecycle of a supervised process

A shallow embedding of `runner.go` (the `Runner` and its control loop) and of
`process.go` (the asynchronous `Process` handle).

The control loop of `Runner.Run` is a `select` over four channels.  It is
embedded as a step function over an explicit state; the environment (the
operating system process, the output detector, the timer and the sender of
signals) is a list of events.  A `select` case whose channel is `nil`, or whose
channel has nothing to deliver, can not be taken: the step function leaves the
state unchanged on such an event.

The collaborators `gexec`, `gbytes` and `ginkgo` are modelled by the interface
the runner uses: a session that can be signalled and killed, that has an exit
code once the exit of the process has been seen, and whose `Wait` is an
assertion that fails, by a panic, when the exit is not seen in time; a buffer
that retains what was written and whose `Detect` panics on a marker that is not
a regular expression; a deferred `GinkgoRecover` that recovers a panic, after
which the function returns the current value of its named result.
-/

namespace Gmonit

/-! ## Channels, sessions, errors -/

/-- An `os.Signal`, by its number. -/
abbrev Signal := Nat

/-- A `time.Duration`: a number of nanoseconds. -/
abbrev Duration := Int

/-- The value `time.Second`. -/
def Second : Duration := 1000000000

/-- The signal sent by `Session.Kill`. -/
def SIGKILL : Signal := 9

/-- The state of a Go channel of `struct{}` that is only ever closed. -/
inductive Chan where
  | nil
  | open
  | closed
deriving DecidableEq, Repr

/-- The builtin `close(c)`: it closes an open channel and panics (`none`) on a
nil channel and on a channel that is closed already. -/
def Chan.close : Chan → Option Chan
  | .open => some .closed
  | .nil => none
  | .closed => none

/-- What a call of a `func()` value does: it returns, or it panics. -/
inductive Callback where
  | returns
  | panics
deriving DecidableEq, Repr

/-- A `gexec.Session`: `exit` is the exit code once the session has seen the
exit of the process (the channel `Exited` is closed exactly then), `signals`
are the signals delivered to the process, oldest first.  `lingers` tells that
the exit of the process, were it killed now, would not be seen in time by
`Wait`: the session sees the exit only once the process is reaped and its
output is closed, and a descendant of the process may hold the output open. -/
structure Session where
  exit : Option Int
  signals : List Signal
  lingers : Bool := false
deriving DecidableEq, Repr

/-- The method `Session.ExitCode`: -1 while the process has not exited. -/
def Session.ExitCode (s : Session) : Int := s.exit.getD (-1)

/-- The method `Session.Signal`: delivers the signal if the process is alive. -/
def Session.Signal (s : Session) (sig : Signal) : Session :=
  match s.exit with
  | none => { s with signals := s.signals ++ [sig] }
  | some _ => s

/-- The method `Session.Kill`. -/
def Session.Kill (s : Session) : Session := s.Signal SIGKILL

/-- The method `Session.Wait`: the assertion `Eventually(s).Should(Exit())`,
which polls the exit code for an interval (one second by default).  It returns
the session when the exit has been seen already, or when the process has been
sent the kill signal and does not linger: it dies of the signal, with exit
code 128 plus the signal number.  Otherwise the assertion fails, which is a
panic (`none`), and the process has not exited. -/
def Session.Wait (s : Session) : Option Session :=
  match s.exit with
  | some _ => some s
  | none =>
    if SIGKILL ∈ s.signals ∧ s.lingers = false then some { s with exit := some (128 + 9) }
    else none

/-- The environment terminates the process with the given exit code. -/
def Session.terminate (s : Session) (code : Int) : Session :=
  match s.exit with
  | none => { s with exit := some code }
  | some _ => s

/-- The error values that `Runner.Run` builds with `fmt.Errorf`.  The cause of
`cannotStart` is the error of `gexec.Start`, wrapped with `%w`. -/
inductive Error where
  | cannotStart (name : String) (cause : String)
  | didNotSee (name : String) (check : String) (output : String)
  | exitStatus (code : Int)
deriving DecidableEq, Repr

/-- The method `Error()` of the error value: the formatted text. -/
def Error.text : Error → String
  | .cannotStart name cause =>
      "runner \x27" ++ name ++ "\x27 cannot start a process because of failure: " ++ cause
  | .didNotSee name check output =>
      "runner \x27" ++ name ++ "\x27 did not see \x27" ++ check
        ++ "\x27 in command\x27s output within the deadline. output: " ++ output
  | .exitStatus code => "exit with status code: " ++ toString code

/-- The function `errors.Unwrap` on the error value. -/
def Error.unwrap : Error → Option String
  | .cannotStart _ cause => some cause
  | .didNotSee _ _ _ => none
  | .exitStatus _ => none

/-! ## Config and Runner -/

/-- The struct `Config`; the command is the business of `gexec.Start`. -/
structure Config where
  Name : String
  StartCheck : String
  StartCheckTimeout : Duration
  Cleanup : Option Callback
deriving DecidableEq, Repr

/-- The struct `Runner`: `session` is nil until `Run` has called `gexec.Start`,
`ready` is the private channel made by `New`. -/
structure Runner where
  Name : String
  StartCheck : String
  StartCheckTimeout : Duration
  Cleanup : Option Callback
  session : Option Session
  ready : Chan
deriving DecidableEq, Repr

/-- The constructor `New`. -/
def New (config : Config) : Runner :=
  { Name := config.Name
    StartCheck := config.StartCheck
    StartCheckTimeout := config.StartCheckTimeout
    Cleanup := config.Cleanup
    session := none
    ready := .open }

/-- The method `Runner.deadline`: `none` is the nil channel, `some d` is the
channel of `time.After(d)`. -/
def Runner.deadline (r : Runner) : Option Duration :=
  let timeout := r.StartCheckTimeout
  let timeout := if timeout = 0 then 5 * Second else timeout
  if r.StartCheck ≠ "" then some timeout else none

/-- The method `Runner.validate`: `some msg` is the call `ginkgo.Fail(msg, 2)`,
which does not return. -/
def Runner.validate (r : Runner) : Option String :=
  let err : Option String :=
    if r.ready = .nil then
      some ("runner \x27" ++ r.Name ++ "\x27 improperly created without using New")
    else none
  err

/-- What a call of an accessor of the runner comes to. -/
inductive Access (α : Type) where
  | fatal (msg : String)
  | blocked
  | crashed
  | value (a : α)
deriving DecidableEq, Repr

/-- The common shape of `ExitCode`, `Buffer` and `Err`: validate, receive from
`r.ready` (which blocks while the channel is open), then read the session (a
nil session is a nil dereference). -/
def Runner.access {α : Type} (r : Runner) (read : Session → α) : Access α :=
  match r.validate with
  | some msg => .fatal msg
  | none =>
    match r.ready with
    | .closed =>
      match r.session with
      | some s => .value (read s)
      | none => .crashed
    | .open => .blocked
    | .nil => .blocked

/-- The method `Runner.ExitCode`. -/
def Runner.ExitCode (r : Runner) : Access Int := r.access Session.ExitCode

/-- The method `Runner.Buffer`, the buffer named by its contents. -/
def Runner.Buffer (r : Runner) (contents : Session → String) : Access String :=
  r.access contents

/-- The method `Runner.Err`, the buffer named by its contents. -/
def Runner.Err (r : Runner) (contents : Session → String) : Access String :=
  r.access contents

/-! ## The control loop of `Runner.Run` -/

/-- What happens before the loop.  `failed`: `gexec.Start` returns an error.
`started`: it returns a live session of the command at `path` with the process
id `pid`, and `observer.Detect` accepts the marker.  `invalid`: the session is
live as well, and `observer.Detect` panics on the marker, which it compiles as
a regular expression (`regexp.MustCompile`). -/
inductive StartResult where
  | failed (cause : String)
  | started (path : String) (pid : Nat)
  | invalid (path : String) (pid : Nat)
deriving DecidableEq, Repr

/-- The calls that `Run` makes on its collaborators, in program order.
`cleanup` records whether the process had exited when the callback was
called; `recovered` is the deferred `GinkgoRecover` recovering a panic. -/
inductive Effect where
  | closeRunnerReady
  | detect (marker : String)
  | armDeadline (d : Duration)
  | cancelDetects
  | closeReady
  | kill
  | wait
  | forward (sig : Signal)
  | cleanup (processExited : Bool)
  | recovered
deriving DecidableEq, Repr

/-- The variables of the loop: the session, the contents of `observer`, whether
`detector` is a channel (not nil), `deadline` (nil or the timer), the channel
`ready` passed to `Run`, the named result `err`, and the calls made so far. -/
structure State where
  session : Session
  observer : String
  detector : Bool
  deadline : Option Duration
  ready : Chan
  err : Option Error
  effects : List Effect
deriving DecidableEq, Repr

/-- What the environment offers to one iteration of the loop.  The first four
are the four cases of the `select`; `processExits` is the session seeing the
process terminate (which closes `Exited`), `output` is the process writing to
its output, `lingers` is the process coming to linger, or no longer to linger,
when killed (see `Session`). -/
inductive Event where
  | detected
  | deadlineElapsed
  | signal (sig : Signal)
  | exited
  | processExits (code : Int)
  | output (text : String)
  | lingers (flag : Bool)
deriving DecidableEq, Repr

/-- The `select` case that ended the run; `start` is everything before the
loop. -/
inductive Terminal where
  | start
  | detected
  | deadline
  | exited
deriving DecidableEq, Repr

/-- One iteration of the loop: it goes on, it returns, or it panics. -/
inductive Step where
  | next (s : State)
  | ret (s : State) (err : Option Error) (cause : Terminal)
  | panicked (s : State) (cause : Terminal)
deriving DecidableEq, Repr

/-- The case `<-detector` of the `select`. -/
def onDetected (s : State) : Step :=
  if s.detector then
    let s := { s with effects := s.effects ++ [Effect.cancelDetects] }
    let s := { s with detector := false }
    let s := { s with deadline := none }
    match s.ready.close with
    | some c => .next { s with ready := c, effects := s.effects ++ [Effect.closeReady] }
    | none => .panicked s .detected
  else .next s

/-- The case `<-deadline` of the `select`.  When the assertion of `Wait` fails
the rest of the case is not run. -/
def onDeadline (r : Runner) (s : State) : Step :=
  match s.deadline with
  | some _ =>
    let s := { s with session := s.session.Kill, effects := s.effects ++ [Effect.kill] }
    let s := { s with effects := s.effects ++ [Effect.wait] }
    match s.session.Wait with
    | none => .panicked s .deadline
    | some session =>
      let s := { s with session := session }
      let output := s.observer
      .ret s (some (.didNotSee r.Name r.StartCheck output)) .deadline
  | none => .next s

/-- The case `signal := <-ch` of the `select`. -/
def onSignal (s : State) (sig : Signal) : Step :=
  .next { s with session := s.session.Signal sig, effects := s.effects ++ [Effect.forward sig] }

/-- The end of the case `<-r.session.Exited`: nil for exit code 0, the error
of the exit code otherwise. -/
def exitReturn (s : State) : Step :=
  if s.session.ExitCode = 0 then .ret s none .exited
  else .ret s (some (.exitStatus s.session.ExitCode)) .exited

/-- The case `<-r.session.Exited` of the `select`; the channel is closed once
the process has exited.  The callback, if there is one, is called first; when
it panics the rest of the case is not run. -/
def onExited (r : Runner) (s : State) : Step :=
  if s.session.exit.isSome then
    match r.Cleanup with
    | none => exitReturn s
    | some callback =>
      let s := { s with effects := s.effects ++ [Effect.cleanup s.session.exit.isSome] }
      match callback with
      | .panics => .panicked s .exited
      | .returns => exitReturn s
  else .next s

/-- One iteration of the loop of `Run` on one event. -/
def step (r : Runner) (s : State) : Event → Step
  | .detected => onDetected s
  | .deadlineElapsed => onDeadline r s
  | .signal sig => onSignal s sig
  | .exited => onExited r s
  | .processExits code => .next { s with session := s.session.terminate code }
  | .output text => .next { s with observer := s.observer ++ text }
  | .lingers flag => .next { s with session := { s.session with lingers := flag } }

/-- How a call of `Run` stands: still in the `select`, or returned with the
error `err`; `recovered` tells that a panic was recovered on the way out. -/
inductive Status where
  | blocked
  | returned (err : Option Error) (cause : Terminal) (recovered : Bool)
deriving DecidableEq, Repr

/-- The loop on a list of events.  A recovered panic returns the current value
of the named result `err`. -/
def loop (r : Runner) : State → List Event → Status × State
  | s, [] => (.blocked, s)
  | s, e :: es =>
    match step r s e with
    | .next s1 => loop r s1 es
    | .ret s1 err cause => (.returned err cause false, s1)
    | .panicked s1 cause =>
      (.returned s1.err cause true, { s1 with effects := s1.effects ++ [Effect.recovered] })

/-- A call of `Run` and what it leaves behind: the runner with its private
fields, the channel `ready`, the contents of `observer`, the variables
`detector` and `deadline` (nil before they are declared), the calls made. -/
structure Result where
  status : Status
  runner : Runner
  ready : Chan
  observer : String
  detector : Bool
  deadline : Option Duration
  effects : List Effect
deriving DecidableEq, Repr

/-- The state in which the loop is entered: the process is alive, the line
`process started` is in the buffer, `r.ready` was closed if it is not nil, the
detector and the deadline are set up. -/
def Runner.enter (r : Runner) (path : String) (pid : Nat) (ready : Chan) : State :=
  { session := { exit := none, signals := [] }
    observer := "process started " ++ path ++ " (pid: " ++ toString pid ++ ")"
    detector := true
    deadline := r.deadline
    ready := ready
    err := none
    effects :=
      (if r.ready ≠ .nil then [Effect.closeRunnerReady] else [])
        ++ [Effect.detect r.StartCheck]
        ++ (match r.deadline with
            | some d => [Effect.armDeadline d]
            | none => []) }

/-- The method `Runner.Run`, on what happens before the loop, the channel
`ready` and the events offered to the loop.  `gexec.Start` returns a session
also when it returns an error; a panic before the loop (the close of a closed
`r.ready`, `observer.Detect` on an invalid marker) is recovered and `Run`
returns the named result `err`, which is nil after a successful start. -/
def Runner.Run (r : Runner) (start : StartResult) (ready : Chan) (events : List Event) :
    Result :=
  match start with
  | .failed cause =>
    { status := .returned (some (.cannotStart r.Name cause)) .start false
      runner := { r with session := some { exit := none, signals := [] } }
      ready := ready
      observer := ""
      detector := false
      deadline := none
      effects := [] }
  | .started path pid =>
    match (if r.ready ≠ .nil then r.ready.close else some r.ready) with
    | none =>
      { status := .returned none .start true
        runner := { r with session := some { exit := none, signals := [] } }
        ready := ready
        observer := "process started " ++ path ++ " (pid: " ++ toString pid ++ ")"
        detector := false
        deadline := none
        effects := [Effect.recovered] }
    | some rr =>
      let out := loop r (r.enter path pid ready) events
      { status := out.1
        runner := { r with session := some out.2.session, ready := rr }
        ready := out.2.ready
        observer := out.2.observer
        detector := out.2.detector
        deadline := out.2.deadline
        effects := out.2.effects }
  | .invalid path pid =>
    match (if r.ready ≠ .nil then r.ready.close else some r.ready) with
    | none =>
      { status := .returned none .start true
        runner := { r with session := some { exit := none, signals := [] } }
        ready := ready
        observer := "process started " ++ path ++ " (pid: " ++ toString pid ++ ")"
        detector := false
        deadline := none
        effects := [Effect.recovered] }
    | some rr =>
      { status := .returned none .start true
        runner := { r with session := some { exit := none, signals := [] }, ready := rr }
        ready := ready
        observer := "process started " ++ path ++ " (pid: " ++ toString pid ++ ")"
        detector := false
        deadline := none
        effects :=
          (if r.ready ≠ .nil then [Effect.closeRunnerReady] else [])
            ++ [Effect.detect r.StartCheck, Effect.recovered] }

/-- Whether an effect is a call of the cleanup callback. -/
def Effect.isCleanup : Effect → Bool
  | .cleanup _ => true
  | _ => false

/-- Whether the text `part` occurs in the text `whole`. -/
def includes (whole part : String) : Prop := part.data <:+: whole.data

/-- The reference definition of the deadline, in the words of the
specification: no timer without a marker; with a marker, a timer of
`StartCheckTimeout` if that is non-zero and of 5 seconds if it is zero. -/
def deadlineSpec (r : Runner) : Option Duration :=
  if r.StartCheck = "" then none
  else if r.StartCheckTimeout ≠ 0 then some r.StartCheckTimeout
  else some (5 * Second)

/-! ## What holds while the loop runs and when it stops -/

/-- What holds of the variables while the loop is running. -/
structure Running (r : Runner) (s : State) : Prop where
  err : s.err = none
  deadline : s.deadline = if s.detector then r.deadline else none
  closes : s.effects.count Effect.closeReady = if s.detector then 0 else 1
  cancels : s.effects.count Effect.cancelDetects = if s.detector then 0 else 1
  noKill : Effect.kill ∉ s.effects
  noWait : Effect.wait ∉ s.effects
  noCleanup : s.effects.countP Effect.isCleanup = 0
  noRecovered : Effect.recovered ∉ s.effects
  signals : ∀ sig ∈ s.session.signals, Effect.forward sig ∈ s.effects

/-- The error that the case `<-r.session.Exited` returns for an exit code. -/
def exitError (code : Int) : Option Error :=
  if code = 0 then none else some (.exitStatus code)

/-- What holds when `loop` stops, by the way it stopped.  In each case `s0` is
the state of the loop before its last iteration. -/
def Post (r : Runner) : Status → State → Prop
  | .blocked, s => Running r s
  | .returned _ .start _, _ => False
  | .returned err .detected recovered, s =>
      recovered = true ∧ err = none ∧ ∃ s0, Running r s0 ∧ s0.detector = true ∧
        s0.ready.close = none ∧
        s = { s0 with detector := false, deadline := none,
                      effects := s0.effects ++ [Effect.cancelDetects, Effect.recovered] }
  | .returned err .deadline recovered, s =>
      ∃ s0, Running r s0 ∧ s0.deadline ≠ none ∧
        match s0.session.Kill.Wait with
        | some session =>
            recovered = false ∧ err = some (.didNotSee r.Name r.StartCheck s.observer) ∧
              s = { s0 with session := session,
                            effects := s0.effects ++ [Effect.kill, Effect.wait] }
        | none =>
            recovered = true ∧ err = none ∧
              s = { s0 with session := s0.session.Kill,
                            effects := s0.effects
                              ++ [Effect.kill, Effect.wait, Effect.recovered] }
  | .returned err .exited recovered, s =>
      ∃ s0 code, Running r s0 ∧ s0.session.exit = some code ∧
        match r.Cleanup with
        | none => recovered = false ∧ err = exitError code ∧ s = s0
        | some .returns =>
            recovered = false ∧ err = exitError code ∧
              s = { s0 with effects := s0.effects ++ [Effect.cleanup true] }
        | some .panics =>
            recovered = true ∧ err = none ∧
              s = { s0 with effects := s0.effects ++ [Effect.cleanup true, Effect.recovered] }

/-- What one iteration establishes, for each way it can end. -/
def StepPost (r : Runner) : Step → Prop
  | .next s1 => Running r s1
  | .ret s1 err cause => Post r (.returned err cause false) s1
  | .panicked s1 cause =>
      Post r (.returned s1.err cause true)
        { s1 with effects := s1.effects ++ [Effect.recovered] }

/-- The state in which `loop` stops on the events of a run. -/
def Runner.final (r : Runner) (path : String) (pid : Nat) (ready : Chan)
    (events : List Event) : State :=
  (loop r (r.enter path pid ready) events).2

/-! ## The Process handle

`Process.Run` and the goroutine started by each call of `Wait` run
concurrently.  Each goroutine is a sequence of atomic statements; a schedule is
the list of the goroutines in the order in which they take a step.  A receive
from `p.exited` can only be taken once the channel is closed; a goroutine that
is scheduled while it can not proceed stays where it is.  The channels
`signals` and `ready` of the handle are the arguments of `Runner.Run`: the
events of the run and its channel `ready`, made open by `Background`. -/

/-- Where the goroutine of `Process.Run` stands: before the assignment
`p.status = p.runner.Run(...)`, before `close(p.exited)`, or at its end. -/
inductive RunPc where
  | call
  | close
  | done
deriving DecidableEq, Repr

/-- Where the goroutine of a call of `Wait` stands: before the receive
`<-p.exited`, before the send `exit <- p.status`, or at its end. -/
inductive WaitPc where
  | receive
  | send
  | done
deriving DecidableEq, Repr

/-- A call of `Wait`: its goroutine and the values sent so far on the channel
`exit` that it returned (of capacity 1). -/
structure Waiter where
  pc : WaitPc
  exit : List (Option Error)
deriving DecidableEq, Repr

/-- The writes on the shared fields of the handle, in the order they happen. -/
inductive Write where
  | status (v : Option Error)
  | closeExited
deriving DecidableEq, Repr

/-- The struct `Process` with its goroutines. -/
structure Process where
  runner : Runner
  exited : Chan
  status : Option Error
  writes : List Write
  run : RunPc
  waiters : List Waiter
deriving DecidableEq, Repr

/-- The function `Background`: the handle, and the goroutine of `Process.Run`
started. -/
def Background (runner : Runner) : Process :=
  { runner := runner
    exited := .open
    status := none
    writes := []
    run := .call
    waiters := [] }

/-- Who takes the next step: the goroutine of `Process.Run`, a caller that
calls `Wait`, or the goroutine of the call of `Wait` number `i`. -/
inductive Turn where
  | run
  | wait
  | waiter (i : Nat)
deriving DecidableEq, Repr

/-- One step of the goroutine started by `Process.Wait`. -/
def Waiter.turn (p : Process) (w : Waiter) : Waiter :=
  match w.pc with
  | .receive => if p.exited = .closed then { w with pc := .send } else w
  | .send => { w with exit := w.exit ++ [p.status], pc := .done }
  | .done => w

/-- One step of the goroutine of the method `Process.Run`; the call of
`Runner.Run` is over when the run has returned on the events of the process. -/
def Process.Run (start : StartResult) (events : List Event) (p : Process) : Process :=
  match p.run with
  | .call =>
    match (p.runner.Run start .open events).status with
    | .returned err _ _ =>
      { p with status := err, writes := p.writes ++ [Write.status err], run := .close }
    | .blocked => p
  | .close =>
    match p.exited.close with
    | some c => { p with exited := c, writes := p.writes ++ [Write.closeExited], run := .done }
    | none => { p with run := .done }
  | .done => p

/-- The method `Process.Wait`: it makes the channel `exit` and starts the
goroutine that will send the status on it. -/
def Process.Wait (p : Process) : Process :=
  { p with waiters := p.waiters ++ [{ pc := .receive, exit := [] }] }

/-- One step of the handle under the schedule. -/
def Process.turn (start : StartResult) (events : List Event) (p : Process) : Turn → Process
  | .run => p.Run start events
  | .wait => p.Wait
  | .waiter i => { p with waiters := p.waiters.modify (Waiter.turn p) i }

/-- The handle after a schedule. -/
def Process.exec (start : StartResult) (events : List Event) (p : Process)
    (schedule : List Turn) : Process :=
  schedule.foldl (Process.turn start events) p

/-- What holds of a goroutine of `Wait` in a handle. -/
def Waiter.Sound (p : Process) (w : Waiter) : Prop :=
  match w.pc with
  | .receive => w.exit = []
  | .send => w.exit = [] ∧ p.exited = .closed
  | .done => w.exit = [p.status] ∧ p.exited = .closed

/-- What holds of a handle whose run returns `err`. -/
def Process.Sound (err : Option Error) (p : Process) : Prop :=
  (match p.run with
    | .call => p.exited = .open ∧ p.writes = []
    | .close => p.exited = .open ∧ p.status = err ∧ p.writes = [Write.status err]
    | .done => p.exited = .closed ∧ p.status = err ∧
        p.writes = [Write.status err, Write.closeExited]) ∧
  ∀ (i : Nat) (w : Waiter), p.waiters[i]? = some w → w.Sound p

/-- How far the goroutine of `Process.Run` has come. -/
def RunPc.rank : RunPc → Nat
  | .call => 0
  | .close => 1
  | .done => 2

/-- How far the goroutine of a call of `Wait` has come. -/
def WaitPc.rank : WaitPc → Nat
  | .receive => 0
  | .send => 1
  | .done => 2

/-- How far the goroutine of the call of `Wait` number `i` has come. -/
def Process.waitRank (p : Process) (i : Nat) : Nat :=
  match p.waiters[i]? with
  | some w => w.pc.rank
  | none => 0

/-- The handle made by `Background` for the runner, after a schedule. -/
def launched (runner : Runner) (start : StartResult) (events : List Event)
    (schedule : List Turn) : Process :=
  (Background runner).exec start events schedule

/-! ## Two runners for the examples -/

/-- A runner made by `New`, with a marker and a cleanup callback that returns. -/
def service : Runner :=
  New { Name := "svc", StartCheck := "ready", StartCheckTimeout := 0,
        Cleanup := some .returns }

/-- A runner made by `New`, without a marker, whose cleanup callback panics. -/
def fragile : Runner :=
  New { Name := "job", StartCheck := "", StartCheckTimeout := 0,
        Cleanup := some .panics }

/-- A runner made by `New` with the marker `ready` and a deadline of 200
milliseconds. -/
def impatient : Runner :=
  New { Name := "svc", StartCheck := "ready", StartCheckTimeout := 200000000,
        Cleanup := none }

/-! ## Lemmas on the loop -/

theorem loop_append (r : Runner) (pre post : List Event) (s : State) :
    loop r s (pre ++ post) =
      match loop r s pre with
      | (.blocked, s1) => loop r s1 post
      | out => out := by
  induction pre generalizing s with
  | nil => simp [loop]
  | cons e es ih =>
    simp only [List.cons_append, loop]
    cases h : step r s e with
    | next s1 => simpa using ih s1
    | ret s1 err cause => simp
    | panicked s1 cause => simp

theorem running_enter (r : Runner) (path : String) (pid : Nat) (ready : Chan) :
    Running r (r.enter path pid ready) := by
  constructor <;> simp only [Runner.enter] <;>
    by_cases h : r.ready = .nil <;> cases hd : r.deadline <;>
    simp [h, hd, Effect.isCleanup]

theorem signals_Signal (s : Session) (sig x : Signal) (h : x ∈ (s.Signal sig).signals) :
    x ∈ s.signals ∨ x = sig := by
  unfold Session.Signal at h
  cases hx : s.exit with
  | none =>
    rw [hx] at h
    simpa using h
  | some code =>
    rw [hx] at h
    exact Or.inl h

theorem signals_terminate (s : Session) (code : Int) :
    (s.terminate code).signals = s.signals := by
  unfold Session.terminate
  cases s.exit <;> rfl

theorem onDetected_post (r : Runner) (s : State) (h : Running r s) :
    StepPost r (onDetected s) := by
  unfold onDetected
  by_cases hd : s.detector = true
  · have h1 := h.closes
    have h2 := h.cancels
    simp only [hd, if_true] at h1 h2
    simp only [hd, if_true]
    cases hc : s.ready.close with
    | some c =>
      simp only [StepPost]
      have hsig := h.signals
      constructor <;>
        simp [h.err, h1, h2, h.noKill, h.noWait, h.noRecovered, Effect.isCleanup,
          List.count_append, List.countP_append, h.noCleanup]
      exact hsig
    | none =>
      simp only [StepPost, Post]
      exact ⟨trivial, h.err, s, h, hd, hc, by simp⟩
  · simp only [hd]
    exact h

theorem onDeadline_post (r : Runner) (s : State) (h : Running r s) :
    StepPost r (onDeadline r s) := by
  unfold onDeadline
  cases hd : s.deadline with
  | none => exact h
  | some d =>
    cases hw : s.session.Kill.Wait with
    | none =>
      simp only [hw, StepPost, Post]
      exact ⟨s, h, by simp [hd], by simp [hw, h.err, hd]⟩
    | some session =>
      simp only [hw, StepPost, Post]
      exact ⟨s, h, by simp [hd], by simp [hw, hd]⟩

theorem onSignal_post (r : Runner) (s : State) (sig : Signal) (h : Running r s) :
    StepPost r (onSignal s sig) := by
  unfold onSignal
  simp only [StepPost]
  have hsig := h.signals
  constructor <;>
    simp [h.err, h.deadline, h.closes, h.cancels, h.noKill, h.noWait, h.noRecovered,
      Effect.isCleanup, List.count_append, List.countP_append, h.noCleanup]
  intro x hmem
  rcases signals_Signal s.session sig x hmem with hx | hx
  · exact Or.inl (hsig x hx)
  · exact Or.inr hx

theorem onExited_post (r : Runner) (s : State) (h : Running r s) :
    StepPost r (onExited r s) := by
  unfold onExited
  cases hx : s.session.exit with
  | none => simpa using h
  | some code =>
    simp only [Option.isSome_some, if_true]
    cases hc : r.Cleanup with
    | none =>
      simp only [exitReturn, Session.ExitCode, hx, Option.getD_some]
      by_cases h0 : code = 0
      · simp only [h0, if_true, StepPost, Post]
        exact ⟨s, 0, h, by simpa [h0] using hx, by simp [hc, exitError]⟩
      · simp only [h0, if_false, StepPost, Post]
        exact ⟨s, code, h, hx, by simp [hc, exitError, h0]⟩
    | some cb =>
      cases cb with
      | returns =>
        simp only [exitReturn, Session.ExitCode, hx, Option.getD_some]
        by_cases h0 : code = 0
        · simp only [h0, if_true, StepPost, Post]
          exact ⟨s, 0, h, by simpa [h0] using hx, by simp [hc, exitError]⟩
        · simp only [h0, if_false, StepPost, Post]
          exact ⟨s, code, h, hx, by simp [hc, exitError, h0]⟩
      | panics =>
        simp only [StepPost, Post]
        exact ⟨s, code, h, hx, by simp [hc, h.err]⟩

theorem step_post (r : Runner) (s : State) (e : Event) (h : Running r s) :
    StepPost r (step r s e) := by
  cases e with
  | detected => exact onDetected_post r s h
  | deadlineElapsed => exact onDeadline_post r s h
  | signal sig => exact onSignal_post r s sig h
  | exited => exact onExited_post r s h
  | processExits code =>
    simp only [step, StepPost]
    constructor <;>
      simp [h.err, h.deadline, h.closes, h.cancels, h.noKill, h.noWait, h.noRecovered,
        h.noCleanup, signals_terminate]
    exact h.signals
  | output text =>
    simp only [step, StepPost]
    constructor <;>
      simp [h.err, h.deadline, h.closes, h.cancels, h.noKill, h.noWait, h.noRecovered,
        h.noCleanup]
    exact h.signals
  | lingers flag =>
    simp only [step, StepPost]
    constructor <;>
      simp [h.err, h.deadline, h.closes, h.cancels, h.noKill, h.noWait, h.noRecovered,
        h.noCleanup]
    exact h.signals

theorem loop_post (r : Runner) (events : List Event) (s : State) (h : Running r s) :
    Post r (loop r s events).1 (loop r s events).2 := by
  induction events generalizing s with
  | nil => simpa [loop, Post] using h
  | cons e es ih =>
    have hs := step_post r s e h
    simp only [loop]
    cases hstep : step r s e with
    | next s1 =>
      rw [hstep] at hs
      exact ih s1 hs
    | ret s1 err cause =>
      rw [hstep] at hs
      exact hs
    | panicked s1 cause =>
      rw [hstep] at hs
      exact hs

theorem Run_closed (r : Runner) (path : String) (pid : Nat) (ready : Chan)
    (events : List Event) (h : r.ready = .closed) :
    (r.Run (.started path pid) ready events).status = .returned none .start true ∧
    (r.Run (.started path pid) ready events).effects = [Effect.recovered] ∧
    (r.Run (.started path pid) ready events).ready = ready ∧
    (r.Run (.started path pid) ready events).detector = false ∧
    (r.Run (.started path pid) ready events).deadline = none := by
  simp [Runner.Run, h, Chan.close]

theorem Run_entered (r : Runner) (path : String) (pid : Nat) (ready : Chan)
    (events : List Event) (h : r.ready ≠ .closed) :
    (r.Run (.started path pid) ready events).status
        = (loop r (r.enter path pid ready) events).1 ∧
    (r.Run (.started path pid) ready events).effects = (r.final path pid ready events).effects ∧
    (r.Run (.started path pid) ready events).ready = (r.final path pid ready events).ready ∧
    (r.Run (.started path pid) ready events).observer
        = (r.final path pid ready events).observer ∧
    (r.Run (.started path pid) ready events).detector
        = (r.final path pid ready events).detector ∧
    (r.Run (.started path pid) ready events).deadline
        = (r.final path pid ready events).deadline ∧
    (r.Run (.started path pid) ready events).runner.session
        = some (r.final path pid ready events).session := by
  cases hr : r.ready with
  | nil => simp [Runner.Run, hr, Runner.final]
  | closed => exact absurd hr h
  | _ => simp [Runner.Run, hr, Runner.final, Chan.close]

theorem final_post (r : Runner) (path : String) (pid : Nat) (ready : Chan)
    (events : List Event) :
    Post r (loop r (r.enter path pid ready) events).1 (r.final path pid ready events) :=
  loop_post r events _ (running_enter r path pid ready)

theorem Run_invalid (r : Runner) (path : String) (pid : Nat) (ready : Chan)
    (events : List Event) :
    (r.Run (.invalid path pid) ready events).status = .returned none .start true ∧
    (r.Run (.invalid path pid) ready events).effects.count Effect.closeReady = 0 ∧
    (r.Run (.invalid path pid) ready events).effects.countP Effect.isCleanup = 0 ∧
    (r.Run (.invalid path pid) ready events).ready = ready ∧
    (r.Run (.invalid path pid) ready events).detector = false ∧
    (r.Run (.invalid path pid) ready events).deadline = none ∧
    r.Run (.invalid path pid) ready events = r.Run (.invalid path pid) ready [] := by
  cases hr : r.ready <;>
    simp [Runner.Run, hr, Chan.close, List.count_cons, List.countP_cons, Effect.isCleanup]

/-! ## The claims on `Runner` -/

/-- C2: when `gexec.Start` returns an error, `Run` returns at once (whatever
events are offered) the error built from the name of the runner that wraps the
error of the start; the channel `ready` and the private channel of the runner
are left as they were, no detector is registered, no deadline is armed, and no
call at all is made on the collaborators: no close of `ready`, no signal
forwarded, no cleanup. -/
theorem Run_start_failure (r : Runner) (cause : String) (ready : Chan)
    (events : List Event) :
    (r.Run (.failed cause) ready events).status
        = .returned (some (.cannotStart r.Name cause)) .start false ∧
    (Error.cannotStart r.Name cause).unwrap = some cause ∧
    (Error.cannotStart r.Name cause).text
        = "runner \x27" ++ r.Name ++ "\x27 cannot start a process because of failure: "
            ++ cause ∧
    r.Run (.failed cause) ready events = r.Run (.failed cause) ready [] ∧
    (r.Run (.failed cause) ready events).ready = ready ∧
    (r.Run (.failed cause) ready events).runner.ready = r.ready ∧
    (r.Run (.failed cause) ready events).detector = false ∧
    (r.Run (.failed cause) ready events).deadline = none ∧
    (r.Run (.failed cause) ready events).effects = [] := by
  simp [Runner.Run, Error.unwrap, Error.text]

theorem no_deadline_without_marker (r : Runner) (h : r.StartCheck = "")
    (start : StartResult) (ready : Chan) (events : List Event) (err : Option Error)
    (recovered : Bool) :
    (r.Run start ready events).status ≠ .returned err .deadline recovered := by
  cases start with
  | failed cause => simp [Runner.Run]
  | started path pid =>
    by_cases hc : r.ready = .closed
    · rw [(Run_closed r path pid ready events hc).1]
      simp
    · rw [(Run_entered r path pid ready events hc).1]
      intro hst
      have hp := final_post r path pid ready events
      rw [hst] at hp
      obtain ⟨s0, hs0, hne, -⟩ := hp
      apply hne
      rw [hs0.deadline]
      simp [Runner.deadline, h]
  | invalid path pid =>
    rw [(Run_invalid r path pid ready events).1]
    simp

/-- C6: `Runner.deadline` is the reference definition: no timer when
`StartCheck` is empty; otherwise a timer of `StartCheckTimeout` when that is
non-zero and of 5 seconds when it is zero.  A run of a runner without a marker
never ends by the deadline case. -/
theorem deadline_eq_deadlineSpec (r : Runner) :
    r.deadline = deadlineSpec r ∧
    (5 * Second = (5000000000 : Int)) ∧
    (r.StartCheck = "" → r.deadline = none ∧
      ∀ (start : StartResult) (ready : Chan) (events : List Event) (err : Option Error)
        (recovered : Bool),
        (r.Run start ready events).status ≠ .returned err .deadline recovered) := by
  refine ⟨?_, by decide, ?_⟩
  · unfold Runner.deadline deadlineSpec
    by_cases hs : r.StartCheck = "" <;> by_cases ht : r.StartCheckTimeout = 0 <;>
      simp [hs, ht]
  · intro h
    refine ⟨by simp [Runner.deadline, h], ?_⟩
    intro start ready events err recovered
    exact no_deadline_without_marker r h start ready events err recovered

theorem post_deadline (r : Runner) (err : Option Error) (recovered : Bool) (s : State)
    (hp : Post r (.returned err .deadline recovered) s) :
    ∃ s0, Running r s0 ∧ s0.deadline ≠ none ∧ s.detector = s0.detector ∧
      s.deadline = s0.deadline ∧ s.observer = s0.observer ∧
      (s.effects = s0.effects ++ [Effect.kill, Effect.wait] ∨
       s.effects = s0.effects ++ [Effect.kill, Effect.wait, Effect.recovered]) := by
  obtain ⟨s0, hs0, hne, hm⟩ := hp
  refine ⟨s0, hs0, hne, ?_⟩
  cases hw : s0.session.Kill.Wait with
  | none =>
    rw [hw] at hm
    obtain ⟨-, -, rfl⟩ := hm
    simp
  | some session =>
    rw [hw] at hm
    obtain ⟨-, -, rfl⟩ := hm
    simp

theorem post_closes (r : Runner) (st : Status) (s : State) (hp : Post r st s) :
    s.effects.count Effect.closeReady ≤ 1 ∧
    (s.effects.count Effect.closeReady = 1 → s.detector = false ∧ s.deadline = none) := by
  cases st with
  | blocked =>
    have hc := hp.closes
    have hd := hp.deadline
    by_cases hdet : s.detector = true <;> simp_all
  | returned err cause recovered =>
    cases cause with
    | start => exact absurd hp (by simp [Post])
    | detected =>
      obtain ⟨-, -, s0, hs0, hdet, -, rfl⟩ := hp
      have hc := hs0.closes
      simp [hdet] at hc
      simp [List.count_append, hc]
    | deadline =>
      obtain ⟨s0, hs0, hne, -, -, -, heff⟩ := post_deadline r err recovered s hp
      have hc := hs0.closes
      have hd := hs0.deadline
      by_cases hdet : s0.detector = true
      · simp [hdet] at hc
        rcases heff with heff | heff <;> simp [heff, List.count_append, hc]
      · simp [hdet] at hd
        exact absurd hd hne
    | exited =>
      obtain ⟨s0, code, hs0, -, hm⟩ := hp
      have hc := hs0.closes
      have hd := hs0.deadline
      cases hcl : r.Cleanup with
      | none =>
        rw [hcl] at hm
        obtain ⟨-, -, rfl⟩ := hm
        by_cases hdet : s.detector = true <;> simp_all
      | some cb =>
        cases cb <;>
        · rw [hcl] at hm
          obtain ⟨-, -, rfl⟩ := hm
          by_cases hdet : s0.detector = true <;> simp_all [List.count_append]

theorem Run_append_returned (r : Runner) (start : StartResult) (ready : Chan)
    (events more : List Event) (h : (r.Run start ready events).status ≠ .blocked) :
    r.Run start ready (events ++ more) = r.Run start ready events := by
  cases start with
  | failed cause => simp [Runner.Run]
  | started path pid =>
    cases hr : r.ready with
    | closed => simp [Runner.Run, hr, Chan.close]
    | nil =>
      simp only [Runner.Run, hr, ne_eq, not_true_eq_false, if_false] at h ⊢
      rw [loop_append]
      cases hl : loop r (r.enter path pid ready) events with
      | mk st s1 =>
        rw [hl] at h
        cases st with
        | blocked => exact absurd rfl h
        | returned err cause recovered => simp
    | _ =>
      simp only [Runner.Run, hr, ne_eq, reduceCtorEq, not_false_eq_true, if_true,
        Chan.close] at h ⊢
      rw [loop_append]
      cases hl : loop r (r.enter path pid ready) events with
      | mk st s1 =>
        rw [hl] at h
        cases st with
        | blocked => exact absurd rfl h
        | returned err cause recovered => simp
  | invalid path pid =>
    rw [(Run_invalid r path pid ready (events ++ more)).2.2.2.2.2.2,
      ← (Run_invalid r path pid ready events).2.2.2.2.2.2]

/-- C4: for every sequence of events offered to the loop of `Run`, the channel
`ready` is closed at most once; once it has been closed the detector is nil
(and so is the deadline), so that no later iteration closes it again; and once
`Run` has returned nothing more happens, whatever events follow. -/
theorem ready_closed_at_most_once (r : Runner) (start : StartResult) (ready : Chan)
    (events : List Event) :
    (r.Run start ready events).effects.count Effect.closeReady ≤ 1 ∧
    ((r.Run start ready events).effects.count Effect.closeReady = 1 →
      (r.Run start ready events).detector = false ∧
      (r.Run start ready events).deadline = none) ∧
    (∀ more : List Event, (r.Run start ready events).status ≠ .blocked →
      r.Run start ready (events ++ more) = r.Run start ready events) := by
  refine ⟨?_, ?_, fun more h => Run_append_returned r start ready events more h⟩
  · cases start with
    | failed cause => simp [Runner.Run]
    | started path pid =>
      by_cases hc : r.ready = .closed
      · rw [(Run_closed r path pid ready events hc).2.1]
        simp
      · rw [(Run_entered r path pid ready events hc).2.1]
        exact (post_closes r _ _ (final_post r path pid ready events)).1
    | invalid path pid =>
      rw [(Run_invalid r path pid ready events).2.1]
      omega
  · cases start with
    | failed cause => simp [Runner.Run]
    | started path pid =>
      by_cases hc : r.ready = .closed
      · rw [(Run_closed r path pid ready events hc).2.1]
        simp
      · have he := Run_entered r path pid ready events hc
        rw [he.2.1, he.2.2.2.2.1, he.2.2.2.2.2.1]
        exact (post_closes r _ _ (final_post r path pid ready events)).2
    | invalid path pid =>
      rw [(Run_invalid r path pid ready events).2.1]
      simp

/-- After readiness: what `loop` comes to from a running state whose detector
is nil. -/
theorem loop_disarmed (r : Runner) (events : List Event) (s : State) (h : Running r s)
    (hd : s.detector = false) :
    (loop r s events).2.detector = false ∧
    (loop r s events).2.deadline = none ∧
    Effect.kill ∉ (loop r s events).2.effects ∧
    Effect.wait ∉ (loop r s events).2.effects ∧
    (∀ sig ∈ (loop r s events).2.session.signals,
      Effect.forward sig ∈ (loop r s events).2.effects) ∧
    (∀ err cause recovered, (loop r s events).1 = .returned err cause recovered →
      cause = .exited ∧ (loop r s events).2.session.exit.isSome = true) := by
  induction events generalizing s with
  | nil =>
    have hdl := h.deadline
    simp only [hd] at hdl
    simp only [loop]
    exact ⟨hd, by simpa using hdl, h.noKill, h.noWait, h.signals, by simp⟩
  | cons e es ih =>
    have hdl := h.deadline
    simp only [hd] at hdl
    have hs := step_post r s e h
    have hsig := h.signals
    cases e with
    | detected =>
      have : step r s .detected = .next s := by simp [step, onDetected, hd]
      simp only [loop, this]
      exact ih s h hd
    | deadlineElapsed =>
      have : step r s .deadlineElapsed = .next s := by simp [step, onDeadline, hdl]
      simp only [loop, this]
      exact ih s h hd
    | signal sig =>
      simp only [step, onSignal, StepPost] at hs
      simp only [loop, step, onSignal]
      exact ih _ hs hd
    | processExits code =>
      simp only [step, StepPost] at hs
      simp only [loop, step]
      exact ih _ hs hd
    | output text =>
      simp only [step, StepPost] at hs
      simp only [loop, step]
      exact ih _ hs hd
    | lingers flag =>
      simp only [step, StepPost] at hs
      simp only [loop, step]
      exact ih _ hs hd
    | exited =>
      cases hx : s.session.exit with
      | none =>
        have : step r s .exited = .next s := by simp [step, onExited, hx]
        simp only [loop, this]
        exact ih s h hd
      | some code =>
        cases hc : r.Cleanup with
        | none =>
          by_cases h0 : code = 0 <;>
          · simp [loop, step, onExited, exitReturn, hx, hc, Session.ExitCode, h0, hd, hdl, h.noKill,
              h.noWait]
            exact hsig
        | some cb =>
          cases cb <;> by_cases h0 : code = 0 <;>
          · simp [loop, step, onExited, exitReturn, hx, hc, Session.ExitCode, h0, hd, hdl, h.noKill,
              h.noWait]
            exact hsig

/-- C5: once the readiness event has been processed (the loop is still running
and `ready` has been closed) the deadline is nil, and whatever events follow:
the deadline stays nil, the run does not end by the deadline case, the process
is not force-killed (no call of `Kill` nor of `Wait`; every signal the process
has got is one the loop forwarded from the channel of signals), and if the run
returns it is by the case of the exit of the process, the process having
exited. -/
theorem no_timeout_after_ready (r : Runner) (start : StartResult) (ready : Chan)
    (pre post : List Event)
    (hrun : (r.Run start ready pre).status = .blocked)
    (hready : Effect.closeReady ∈ (r.Run start ready pre).effects) :
    (r.Run start ready pre).deadline = none ∧
    (r.Run start ready (pre ++ post)).deadline = none ∧
    (∀ err recovered,
      (r.Run start ready (pre ++ post)).status ≠ .returned err .deadline recovered) ∧
    Effect.kill ∉ (r.Run start ready (pre ++ post)).effects ∧
    Effect.wait ∉ (r.Run start ready (pre ++ post)).effects ∧
    (∀ session sig, (r.Run start ready (pre ++ post)).runner.session = some session →
      sig ∈ session.signals →
        Effect.forward sig ∈ (r.Run start ready (pre ++ post)).effects) ∧
    (∀ err cause recovered,
      (r.Run start ready (pre ++ post)).status = .returned err cause recovered →
        cause = .exited ∧
        ∃ session code, (r.Run start ready (pre ++ post)).runner.session = some session ∧
          session.exit = some code) := by
  cases start with
  | failed cause => simp [Runner.Run] at hrun
  | invalid path pid =>
    rw [(Run_invalid r path pid ready pre).1] at hrun
    simp at hrun
  | started path pid =>
    by_cases hc : r.ready = .closed
    · rw [(Run_closed r path pid ready pre hc).1] at hrun
      simp at hrun
    · have hpre := Run_entered r path pid ready pre hc
      have hall := Run_entered r path pid ready (pre ++ post) hc
      rw [hpre.1] at hrun
      rw [hpre.2.1] at hready
      have hp := final_post r path pid ready pre
      rw [hrun] at hp
      have hp : Running r (r.final path pid ready pre) := hp
      have hdet : (r.final path pid ready pre).detector = false := by
        have hcl := hp.closes
        by_cases hd : (r.final path pid ready pre).detector = true
        · simp only [hd, if_true] at hcl
          exact absurd hready (List.count_eq_zero.mp hcl)
        · simpa using hd
      have hsplit : loop r (r.enter path pid ready) (pre ++ post)
          = loop r (r.final path pid ready pre) post := by
        rw [loop_append]
        have : loop r (r.enter path pid ready) pre
            = (.blocked, r.final path pid ready pre) := by
          rw [← hrun]
          rfl
        rw [this]
      have hd := loop_disarmed r post _ hp hdet
      rw [← hsplit] at hd
      have hdl := hp.deadline
      simp only [hdet] at hdl
      rw [hpre.2.2.2.2.2.1, hall.1, hall.2.1, hall.2.2.2.2.2.1, hall.2.2.2.2.2.2]
      refine ⟨by simpa using hdl, hd.2.1, ?_, hd.2.2.1, hd.2.2.2.1, ?_, ?_⟩
      · intro err recovered hst
        have := (hd.2.2.2.2.2 err .deadline recovered hst).1
        simp at this
      · intro session sig hsess hmem
        simp only [Option.some.injEq] at hsess
        subst hsess
        exact hd.2.2.2.2.1 sig hmem
      · intro err cause recovered hst
        obtain ⟨h1, h2⟩ := hd.2.2.2.2.2 err cause recovered hst
        refine ⟨h1, _, ?_, rfl, ?_⟩
        · exact ((loop r (r.enter path pid ready) (pre ++ post)).2.session.exit).get h2
        · simp [Runner.final]

/-- An instance of `no_timeout_after_ready`: the marker is seen, then the timer
fires, a signal arrives and the process exits. -/
theorem no_timeout_after_ready_witness :
    (service.Run (.started "/bin/svc" 42) .open [.output "ready", .detected]).status
      = .blocked ∧
    Effect.closeReady
      ∈ (service.Run (.started "/bin/svc" 42) .open [.output "ready", .detected]).effects ∧
    Effect.kill
      ∉ (service.Run (.started "/bin/svc" 42) .open
          ([.output "ready", .detected]
            ++ [.deadlineElapsed, .signal 2, .processExits 0, .exited])).effects :=
  ⟨by decide, by decide,
   (no_timeout_after_ready service (.started "/bin/svc" 42) .open [.output "ready", .detected]
      [.deadlineElapsed, .signal 2, .processExits 0, .exited]
      (by decide) (by decide)).2.2.2.1⟩

theorem didNotSee_text_includes (name check output : String) :
    includes (Error.didNotSee name check output).text name ∧
    includes (Error.didNotSee name check output).text check ∧
    includes (Error.didNotSee name check output).text output := by
  simp only [includes, Error.text, String.data_append]
  refine ⟨⟨"runner \x27".data, ?_, ?_⟩, ⟨?_, ?_, ?_⟩, ⟨?_, [], ?_⟩⟩
  · exact "\x27 did not see \x27".data ++ check.data
      ++ "\x27 in command\x27s output within the deadline. output: ".data ++ output.data
  · simp
  · exact "runner \x27".data ++ name.data ++ "\x27 did not see \x27".data
  · exact "\x27 in command\x27s output within the deadline. output: ".data ++ output.data
  · simp
  · exact "runner \x27".data ++ name.data ++ "\x27 did not see \x27".data ++ check.data
      ++ "\x27 in command\x27s output within the deadline. output: ".data
  · simp

theorem Kill_Wait_none (s : Session) :
    s.Kill.Wait = none ↔ s.exit = none ∧ s.lingers = true := by
  cases hx : s.exit <;> cases hl : s.lingers <;>
    simp [Session.Kill, Session.Signal, Session.Wait, hx, hl]

theorem Kill_Wait_some (s waited : Session) (h : s.Kill.Wait = some waited) :
    (s.exit = none → s.lingers = false ∧
      waited = { s with exit := some 137, signals := s.signals ++ [SIGKILL] }) ∧
    (∀ code, s.exit = some code → waited = s) := by
  cases hx : s.exit <;> cases hl : s.lingers <;>
    simp_all [Session.Kill, Session.Signal, Session.Wait]

/-- The deadline case in a run: when the loop is running with the deadline
armed and the deadline event arrives, `Run` calls `Kill` and `Wait` on the
session.  When `Wait` returns, `Run` returns the error `didNotSee` made of the
name, of `StartCheck` and of the contents of the observer buffer; when the
assertion of `Wait` fails, the panic is recovered and `Run` returns nil, the
session killed but not exited.  The channel `ready` has not been closed. -/
theorem deadline_step (r : Runner) (start : StartResult) (ready : Chan)
    (pre post : List Event)
    (hrun : (r.Run start ready pre).status = .blocked)
    (harmed : (r.Run start ready pre).deadline ≠ none) :
    Effect.closeReady ∉ (r.Run start ready (pre ++ Event.deadlineElapsed :: post)).effects ∧
    ∃ session, (r.Run start ready pre).runner.session = some session ∧
      match session.Kill.Wait with
      | some waited =>
          (r.Run start ready (pre ++ Event.deadlineElapsed :: post)).status
            = .returned
                (some (.didNotSee r.Name r.StartCheck (r.Run start ready pre).observer))
                .deadline false ∧
          (r.Run start ready (pre ++ Event.deadlineElapsed :: post)).effects
            = (r.Run start ready pre).effects ++ [Effect.kill, Effect.wait] ∧
          (r.Run start ready (pre ++ Event.deadlineElapsed :: post)).runner.session
            = some waited
      | none =>
          (r.Run start ready (pre ++ Event.deadlineElapsed :: post)).status
            = .returned none .deadline true ∧
          (r.Run start ready (pre ++ Event.deadlineElapsed :: post)).effects
            = (r.Run start ready pre).effects
                ++ [Effect.kill, Effect.wait, Effect.recovered] ∧
          (r.Run start ready (pre ++ Event.deadlineElapsed :: post)).runner.session
            = some session.Kill := by
  cases start with
  | failed cause => simp [Runner.Run] at hrun
  | invalid path pid =>
    rw [(Run_invalid r path pid ready pre).1] at hrun
    simp at hrun
  | started path pid =>
    by_cases hc : r.ready = .closed
    · rw [(Run_closed r path pid ready pre hc).1] at hrun
      simp at hrun
    · have hpre := Run_entered r path pid ready pre hc
      have hall := Run_entered r path pid ready (pre ++ Event.deadlineElapsed :: post) hc
      rw [hpre.1] at hrun
      rw [hpre.2.2.2.2.2.1] at harmed
      have hp := final_post r path pid ready pre
      rw [hrun] at hp
      have hp : Running r (r.final path pid ready pre) := hp
      have hdet : (r.final path pid ready pre).detector = true := by
        have hdl := hp.deadline
        by_cases hd : (r.final path pid ready pre).detector = true
        · exact hd
        · simp only [hd] at hdl
          exact absurd hdl harmed
      have hcl := hp.closes
      simp only [hdet, if_true] at hcl
      have hnot := List.count_eq_zero.mp hcl
      have hpreloop : loop r (r.enter path pid ready) pre
          = (.blocked, r.final path pid ready pre) := by
        rw [← hrun]
        rfl
      obtain ⟨d, hd⟩ := Option.ne_none_iff_exists'.mp harmed
      have herr := hp.err
      rw [hall.1, hall.2.1, hall.2.2.2.2.2.2, hpre.2.1, hpre.2.2.2.1, hpre.2.2.2.2.2.2,
        Runner.final, loop_append, hpreloop]
      cases hw : (r.final path pid ready pre).session.Kill.Wait with
      | none =>
        refine ⟨?_, _, rfl, ?_⟩
        · simp [loop, step, onDeadline, hd, hw, hnot]
        · simp [loop, step, onDeadline, hd, hw, herr]
      | some waited =>
        refine ⟨?_, _, rfl, ?_⟩
        · simp [loop, step, onDeadline, hd, hw, hnot]
        · simp [loop, step, onDeadline, hd, hw]

/-- The deadline case when the killed process does not linger: `Run` kills the
process (the signals it has got end with the kill signal when it was alive),
the process has exited when `Run` returns, and `Run` returns the error
`didNotSee`, whose text includes the name, the marker and the contents of the
observer buffer. -/
theorem deadline_kills (r : Runner) (start : StartResult) (ready : Chan)
    (pre post : List Event) (session : Session)
    (hrun : (r.Run start ready pre).status = .blocked)
    (harmed : (r.Run start ready pre).deadline ≠ none)
    (hsession : (r.Run start ready pre).runner.session = some session)
    (hseen : session.exit ≠ none ∨ session.lingers = false) :
    (r.Run start ready (pre ++ Event.deadlineElapsed :: post)).status
      = .returned (some (.didNotSee r.Name r.StartCheck (r.Run start ready pre).observer))
          .deadline false ∧
    (r.Run start ready (pre ++ Event.deadlineElapsed :: post)).effects
      = (r.Run start ready pre).effects ++ [Effect.kill, Effect.wait] ∧
    (∃ waited code,
      (r.Run start ready (pre ++ Event.deadlineElapsed :: post)).runner.session
        = some waited ∧ waited.exit = some code ∧
      (session.exit = none → waited.signals = session.signals ++ [SIGKILL])) ∧
    Effect.closeReady ∉ (r.Run start ready (pre ++ Event.deadlineElapsed :: post)).effects ∧
    includes (Error.didNotSee r.Name r.StartCheck (r.Run start ready pre).observer).text
      r.Name ∧
    includes (Error.didNotSee r.Name r.StartCheck (r.Run start ready pre).observer).text
      r.StartCheck ∧
    includes (Error.didNotSee r.Name r.StartCheck (r.Run start ready pre).observer).text
      (r.Run start ready pre).observer := by
  obtain ⟨hnot, session0, hs0, hm⟩ := deadline_step r start ready pre post hrun harmed
  rw [hsession] at hs0
  simp only [Option.some.injEq] at hs0
  subst hs0
  cases hw : session.Kill.Wait with
  | none =>
    have := (Kill_Wait_none session).mp hw
    rcases hseen with h1 | h1
    · exact absurd this.1 h1
    · rw [this.2] at h1
      simp at h1
  | some waited =>
    rw [hw] at hm
    have hk := Kill_Wait_some session waited hw
    refine ⟨hm.1, hm.2.1, ?_, hnot, didNotSee_text_includes _ _ _⟩
    cases hx : session.exit with
    | none =>
      have := (hk.1 hx).2
      exact ⟨waited, 137, hm.2.2, by rw [this], fun _ => by rw [this]⟩
    | some code =>
      have := hk.2 code hx
      exact ⟨waited, code, hm.2.2, by rw [this, hx], fun h => by simp at h⟩

/-- An instance of `deadline_kills`: the process writes and the timer fires. -/
theorem deadline_kills_witness :
    (service.Run (.started "/bin/svc" 42) .open [.output "booting"]).status = .blocked ∧
    (service.Run (.started "/bin/svc" 42) .open [.output "booting"]).deadline ≠ none ∧
    (service.Run (.started "/bin/svc" 42) .open
        ([.output "booting"] ++ Event.deadlineElapsed :: [.exited])).status
      = .returned
          (some (.didNotSee service.Name service.StartCheck
            (service.Run (.started "/bin/svc" 42) .open [.output "booting"]).observer))
          .deadline false :=
  ⟨by decide, by decide,
   (deadline_kills service (.started "/bin/svc" 42) .open [.output "booting"] [.exited]
      { exit := none, signals := [] } (by decide) (by decide) (by decide)
      (Or.inr rfl)).1⟩

/-- C7, the code at the failing input: the runner `impatient` starts a process
that never writes the marker and that lingers when killed (a descendant holds
its output); the deadline of 200 milliseconds elapses.  `Run` sends the kill
signal and calls `Wait`, whose assertion fails; the panic is recovered and `Run`
returns nil, with the exit of the process not seen (exit code -1), where the
claim has an error that names the runner, the marker and the output. -/
theorem deadline_wait_failure_returns_nil :
    impatient.deadline = some 200000000 ∧
    (impatient.Run (.started "/bin/sh" 42) .open [.lingers true, .deadlineElapsed]).status
      = .returned none .deadline true ∧
    (impatient.Run (.started "/bin/sh" 42) .open
        [.lingers true, .deadlineElapsed]).runner.session
      = some { exit := none, signals := [SIGKILL], lingers := true } ∧
    Session.ExitCode { exit := none, signals := [SIGKILL], lingers := true } = -1 ∧
    (impatient.Run (.started "/bin/sh" 42) .open [.lingers true, .deadlineElapsed]).effects
      = [Effect.closeRunnerReady, Effect.detect "ready", Effect.armDeadline 200000000,
         Effect.kill, Effect.wait, Effect.recovered] := by
  refine ⟨?_, ?_, ?_, ?_, ?_⟩ <;> decide

theorem not_mem_of_countP_isCleanup (l : List Effect)
    (h : l.countP Effect.isCleanup = 0) (b : Bool) : Effect.cleanup b ∉ l := by
  intro hm
  have := List.countP_eq_zero.mp h _ hm
  simp [Effect.isCleanup] at this

theorem post_cleanups (r : Runner) (st : Status) (s : State) (hp : Post r st s) :
    (∀ b, Effect.cleanup b ∈ s.effects → b = true) ∧
    s.effects.countP Effect.isCleanup ≤ 1 ∧
    (st = .blocked → s.effects.countP Effect.isCleanup = 0) ∧
    (∀ err recovered, st = .returned err .deadline recovered →
      s.effects.countP Effect.isCleanup = 0) ∧
    (∀ err recovered, st = .returned err .detected recovered →
      s.effects.countP Effect.isCleanup = 0) ∧
    (∀ err recovered, st = .returned err .exited recovered →
      s.session.exit.isSome = true ∧
      (r.Cleanup ≠ none → s.effects.countP Effect.isCleanup = 1) ∧
      (r.Cleanup = none → s.effects.countP Effect.isCleanup = 0)) := by
  cases st with
  | blocked =>
    have h0 := hp.noCleanup
    refine ⟨fun b hb => absurd hb (not_mem_of_countP_isCleanup _ h0 b), by omega,
      fun _ => h0, by simp, by simp, by simp⟩
  | returned err cause recovered =>
    cases cause with
    | start => exact absurd hp (by simp [Post])
    | detected =>
      obtain ⟨-, -, s0, hs0, -, -, rfl⟩ := hp
      have h0 := hs0.noCleanup
      have hn := not_mem_of_countP_isCleanup _ h0
      simp [List.countP_append, h0, hn, Effect.isCleanup]
    | deadline =>
      obtain ⟨s0, hs0, -, -, -, -, heff⟩ := post_deadline r err recovered s hp
      have h0 := hs0.noCleanup
      have hn := not_mem_of_countP_isCleanup _ h0
      rcases heff with heff | heff <;>
        simp [heff, List.countP_append, h0, hn, Effect.isCleanup]
    | exited =>
      obtain ⟨s0, code, hs0, hx, hm⟩ := hp
      have h0 := hs0.noCleanup
      have hn := not_mem_of_countP_isCleanup _ h0
      cases hcl : r.Cleanup with
      | none =>
        rw [hcl] at hm
        obtain ⟨-, -, rfl⟩ := hm
        simp [h0, hn, hx]
      | some cb =>
        cases cb <;>
        · rw [hcl] at hm
          obtain ⟨-, -, rfl⟩ := hm
          simp [List.countP_append, h0, hn, hx, Effect.isCleanup]

/-- C3, the code at the failing input: the runner `service` has a cleanup
callback; its process is started and the deadline elapses; `Run` kills the
process, which has exited (with code 137) when `Run` returns the error of the
deadline, and the cleanup callback has not been called, where the claim has it
called once. -/
theorem cleanup_skipped_on_deadline :
    service.Cleanup = some .returns ∧
    (service.Run (.started "/bin/svc" 42) .open [.output "booting", .deadlineElapsed]).status
      = .returned
          (some (.didNotSee "svc" "ready" "process started /bin/svc (pid: 42)booting"))
          .deadline false ∧
    (service.Run (.started "/bin/svc" 42) .open
        [.output "booting", .deadlineElapsed]).runner.session
      = some { exit := some 137, signals := [9] } ∧
    (service.Run (.started "/bin/svc" 42) .open
        [.output "booting", .deadlineElapsed]).effects.countP Effect.isCleanup = 0 := by
  refine ⟨rfl, ?_, ?_, ?_⟩ <;> decide

/-- The calls of the cleanup callback in a run of a runner that has one: at
most one, and only when the process has exited; exactly one, before `Run`
returns, when the run ends by the case of the exit of the process; none while
the loop is running, and none when the run ends by the deadline case. -/
theorem cleanup_once_on_exit (r : Runner) (start : StartResult) (ready : Chan)
    (events : List Event) (hcleanup : r.Cleanup ≠ none) :
    (r.Run start ready events).effects.countP Effect.isCleanup ≤ 1 ∧
    (∀ b, Effect.cleanup b ∈ (r.Run start ready events).effects → b = true) ∧
    (∀ err recovered, (r.Run start ready events).status = .returned err .exited recovered →
      (r.Run start ready events).effects.countP Effect.isCleanup = 1 ∧
      ∃ session code, (r.Run start ready events).runner.session = some session ∧
        session.exit = some code) ∧
    (∀ err recovered, (r.Run start ready events).status = .returned err .deadline recovered →
      (r.Run start ready events).effects.countP Effect.isCleanup = 0) ∧
    ((r.Run start ready events).status = .blocked →
      (r.Run start ready events).effects.countP Effect.isCleanup = 0) := by
  cases start with
  | failed cause => simp [Runner.Run]
  | invalid path pid =>
    have h := Run_invalid r path pid ready events
    rw [h.1, h.2.2.1]
    refine ⟨by omega, ?_, by simp, by simp, by simp⟩
    intro b hb
    exact absurd hb (not_mem_of_countP_isCleanup _ h.2.2.1 b)
  | started path pid =>
    by_cases hc : r.ready = .closed
    · have h := Run_closed r path pid ready events hc
      rw [h.1, h.2.1]
      simp [Effect.isCleanup]
    · have he := Run_entered r path pid ready events hc
      have hp := post_cleanups r _ _ (final_post r path pid ready events)
      rw [he.1, he.2.1, he.2.2.2.2.2.2]
      refine ⟨hp.2.1, hp.1, ?_, hp.2.2.2.1, hp.2.2.1⟩
      intro err recovered hst
      obtain ⟨hx, h1, -⟩ := hp.2.2.2.2.2 err recovered hst
      exact ⟨h1 hcleanup, _, ((r.final path pid ready events).session.exit).get hx, rfl,
        by simp⟩

/-- An instance of `cleanup_once_on_exit`: the process exits after readiness. -/
theorem cleanup_once_on_exit_witness :
    service.Cleanup ≠ none ∧
    (service.Run (.started "/bin/svc" 42) .open [.detected, .processExits 0, .exited]).status
      = .returned none .exited false ∧
    (service.Run (.started "/bin/svc" 42) .open
        [.detected, .processExits 0, .exited]).effects.countP Effect.isCleanup = 1 :=
  ⟨by decide, by decide,
   ((cleanup_once_on_exit service (.started "/bin/svc" 42) .open
      [.detected, .processExits 0, .exited] (by decide)).2.2.1 none false (by decide)).1⟩

/-- The exit case on a cleanup callback that is absent or returns: `Run`
returns nil for exit code 0 and the error `exitStatus` of the code
otherwise. -/
theorem exit_outcome_of_returning_cleanup (r : Runner) (start : StartResult) (ready : Chan)
    (events : List Event) (err : Option Error) (recovered : Bool)
    (hcleanup : r.Cleanup ≠ some .panics)
    (hexit : (r.Run start ready events).status = .returned err .exited recovered) :
    recovered = false ∧
    ∃ session code, (r.Run start ready events).runner.session = some session ∧
      session.exit = some code ∧ session.ExitCode = code ∧
      (err = none ↔ code = 0) ∧
      (code ≠ 0 → err = some (.exitStatus code) ∧
        (Error.exitStatus code).text = "exit with status code: " ++ toString code) := by
  cases start with
  | failed cause => simp [Runner.Run] at hexit
  | invalid path pid =>
    rw [(Run_invalid r path pid ready events).1] at hexit
    simp at hexit
  | started path pid =>
    by_cases hc : r.ready = .closed
    · rw [(Run_closed r path pid ready events hc).1] at hexit
      simp at hexit
    · have he := Run_entered r path pid ready events hc
      have hp := final_post r path pid ready events
      rw [he.1] at hexit
      rw [hexit] at hp
      obtain ⟨s0, code, hs0, hx, hm⟩ := hp
      rw [he.2.2.2.2.2.2]
      cases hcl : r.Cleanup with
      | none =>
        rw [hcl] at hm
        obtain ⟨h1, h2, h3⟩ := hm
        refine ⟨h1, _, code, rfl, by rw [h3, hx], by simp [Session.ExitCode, h3, hx], ?_, ?_⟩
        · by_cases h0 : code = 0 <;> simp [h2, exitError, h0]
        · intro h0
          simp [h2, exitError, h0, Error.text]
      | some cb =>
        cases cb with
        | panics => exact absurd hcl hcleanup
        | returns =>
          rw [hcl] at hm
          obtain ⟨h1, h2, h3⟩ := hm
          refine ⟨h1, _, code, rfl, by rw [h3]; exact hx,
            by simp [Session.ExitCode, h3, hx], ?_, ?_⟩
          · by_cases h0 : code = 0 <;> simp [h2, exitError, h0]
          · intro h0
            simp [h2, exitError, h0, Error.text]

/-- C1, the code at the failing input: the runner `fragile` (no marker, a
cleanup callback that panics) starts its process, the process exits with code
2 and the loop takes the exit case.  The exit code of the session is 2 and
`Run` returns nil, the panic recovered, where the claim has the error of exit
code 2. -/
theorem exit_code_two_returns_nil :
    fragile.Cleanup = some .panics ∧
    (fragile.Run (.started "/bin/job" 7) .open [.processExits 2, .exited]).status
      = .returned none .exited true ∧
    (fragile.Run (.started "/bin/job" 7) .open [.processExits 2, .exited]).runner.session
      = some { exit := some 2, signals := [] } ∧
    Session.ExitCode { exit := some 2, signals := [] } = 2 := by
  refine ⟨rfl, ?_, ?_, ?_⟩ <;> decide

/-- C9, the code on every exit code: when the cleanup callback panics, a run
made of the exit of the process with code `n` and of the exit case returns
nil, the panic recovered, for `n` zero or not; the callback has been called
once and the exit code of the session is `n`. -/
theorem cleanup_panic_returns_nil (config : Config) (path : String) (pid : Nat) (n : Int) :
    ((New { config with Cleanup := some .panics }).Run (.started path pid) .open
        [.processExits n, .exited]).status = .returned none .exited true ∧
    ((New { config with Cleanup := some .panics }).Run (.started path pid) .open
        [.processExits n, .exited]).runner.session = some { exit := some n, signals := [] } ∧
    Session.ExitCode { exit := some n, signals := [] } = n ∧
    ((New { config with Cleanup := some .panics }).Run (.started path pid) .open
        [.processExits n, .exited]).effects.countP Effect.isCleanup = 1 := by
  simp only [Runner.Run, New, Chan.close, loop, step, onExited, exitReturn, Session.terminate,
    Runner.enter, Session.ExitCode]
  by_cases hs : config.StartCheck = "" <;>
    simp [Runner.deadline, hs, List.countP_cons, Effect.isCleanup]

/-- C10, as stated, fails: a runner built with `New` that has not been run
passes `validate`, and `ExitCode` blocks on the channel `ready` of the runner;
no fatal failure is reported. -/
theorem accessor_on_new_runner_blocks :
    service.validate = none ∧ service.session = none ∧
    service.ExitCode = .blocked ∧
    service.Buffer (fun _ => "") = .blocked ∧
    service.Err (fun _ => "") = .blocked := by
  refine ⟨?_, ?_, ?_, ?_, ?_⟩ <;> decide

/-- C10, amended: an accessor (`ExitCode`, `Buffer`, `Err`) reports the fatal
failure `improperly created without using New` exactly when the channel `ready`
of the runner is nil, that is when the runner was not built with `New`.  On a
runner built with `New` that has not been run, and on one whose start failed,
the accessor blocks; after a started run it returns the value read from the
session. -/
theorem accessor_fatal_iff_not_New (r : Runner) (contents : Session → String) :
    (r.ExitCode
        = .fatal ("runner \x27" ++ r.Name ++ "\x27 improperly created without using New")
      ↔ r.ready = .nil) ∧
    (r.Buffer contents
        = .fatal ("runner \x27" ++ r.Name ++ "\x27 improperly created without using New")
      ↔ r.ready = .nil) ∧
    (r.Err contents
        = .fatal ("runner \x27" ++ r.Name ++ "\x27 improperly created without using New")
      ↔ r.ready = .nil) ∧
    (∀ msg, r.ready ≠ .nil →
      r.ExitCode ≠ .fatal msg ∧ r.Buffer contents ≠ .fatal msg ∧ r.Err contents ≠ .fatal msg) ∧
    (∀ config : Config,
      (New config).ExitCode = .blocked ∧ (New config).Buffer contents = .blocked ∧
      (New config).Err contents = .blocked) ∧
    (∀ (config : Config) (cause : String) (ready : Chan) (events : List Event),
      ((New config).Run (.failed cause) ready events).runner.ExitCode = .blocked) ∧
    (∀ (config : Config) (path : String) (pid : Nat) (ready : Chan) (events : List Event),
      ∃ session, ((New config).Run (.started path pid) ready events).runner.session
          = some session ∧
        ((New config).Run (.started path pid) ready events).runner.ExitCode
          = .value session.ExitCode) := by
  refine ⟨?_, ?_, ?_, ?_, ?_, ?_, ?_⟩
  · cases h : r.ready <;> cases hs : r.session <;>
      simp [Runner.ExitCode, Runner.access, Runner.validate, h, hs]
  · cases h : r.ready <;> cases hs : r.session <;>
      simp [Runner.Buffer, Runner.access, Runner.validate, h, hs]
  · cases h : r.ready <;> cases hs : r.session <;>
      simp [Runner.Err, Runner.access, Runner.validate, h, hs]
  · intro msg hne
    cases h : r.ready <;> cases hs : r.session <;>
      simp_all [Runner.ExitCode, Runner.Buffer, Runner.Err, Runner.access, Runner.validate]
  · intro config
    simp [New, Runner.ExitCode, Runner.Buffer, Runner.Err, Runner.access, Runner.validate]
  · intro config cause ready events
    simp [New, Runner.Run, Runner.ExitCode, Runner.access, Runner.validate]
  · intro config path pid ready events
    refine ⟨_, rfl, ?_⟩
    simp [New, Runner.Run, Chan.close, Runner.ExitCode, Runner.access, Runner.validate]

/-! ## Lemmas on the handle -/

theorem sound_Background (err : Option Error) (runner : Runner) :
    (Background runner).Sound err := by
  simp [Process.Sound, Background]

theorem sound_turn (start : StartResult) (events : List Event) (err : Option Error)
    (cause : Terminal) (recovered : Bool) (p : Process) (t : Turn)
    (hret : (p.runner.Run start .open events).status = .returned err cause recovered)
    (h : p.Sound err) :
    (p.turn start events t).Sound err ∧ (p.turn start events t).runner = p.runner := by
  obtain ⟨hrun, hw⟩ := h
  cases t with
  | run =>
    simp only [Process.turn, Process.Wait, Process.Run]
    cases hpc : p.run with
    | call =>
      rw [hpc] at hrun
      simp only [hret, Process.Sound, hrun.1, hrun.2, List.nil_append, true_and, and_true]
      intro i w hi
      have := hw i w hi
      unfold Waiter.Sound at this ⊢
      cases hwpc : w.pc <;> simp_all
    | close =>
      rw [hpc] at hrun
      simp only [hrun.1, Chan.close, Process.Sound, hrun.2.1, hrun.2.2, List.singleton_append,
        true_and, and_true]
      intro i w hi
      have := hw i w hi
      unfold Waiter.Sound at this ⊢
      cases hwpc : w.pc <;> simp_all
    | done =>
      refine ⟨⟨?_, hw⟩, rfl⟩
      rw [hpc] at hrun ⊢
      exact hrun
  | wait =>
    refine ⟨⟨hrun, ?_⟩, rfl⟩
    intro i w hi
    simp only [Process.turn, Process.Wait] at hi
    by_cases hlt : i < p.waiters.length
    · rw [List.getElem?_append_left hlt] at hi
      exact hw i w hi
    · rw [List.getElem?_append_right (by omega)] at hi
      cases hidx : i - p.waiters.length with
      | zero =>
        rw [hidx] at hi
        simp at hi
        subst hi
        simp [Waiter.Sound]
      | succ k =>
        rw [hidx] at hi
        simp at hi
  | waiter j =>
    refine ⟨⟨hrun, ?_⟩, rfl⟩
    intro i w hi
    change Waiter.Sound p w
    simp only [Process.turn, List.getElem?_modify] at hi
    cases hget : p.waiters[i]? with
    | none => simp [hget] at hi
    | some w0 =>
      have h0 := hw i w0 hget
      simp only [hget, Option.map_eq_map, Option.map_some', Option.some.injEq] at hi
      by_cases hji : j = i
      · simp only [hji, if_true] at hi
        subst hi
        unfold Waiter.Sound at h0 ⊢
        unfold Waiter.turn
        cases hwpc : w0.pc with
        | receive =>
          by_cases hx : p.exited = .closed <;> simp_all
        | send => simp_all
        | done => simp_all
      · simp only [hji, if_false] at hi
        subst hi
        exact h0

theorem sound_exec (start : StartResult) (events : List Event) (err : Option Error)
    (cause : Terminal) (recovered : Bool) (schedule : List Turn) (p : Process)
    (hret : (p.runner.Run start .open events).status = .returned err cause recovered)
    (h : p.Sound err) :
    (p.exec start events schedule).Sound err ∧
    (p.exec start events schedule).runner = p.runner := by
  induction schedule generalizing p with
  | nil => exact ⟨h, rfl⟩
  | cons t ts ih =>
    have ht := sound_turn start events err cause recovered p t hret h
    have := ih (p.turn start events t) (by rw [ht.2]; exact hret) ht.1
    simp only [Process.exec, List.foldl_cons] at this ⊢
    exact ⟨this.1, this.2.trans ht.2⟩

theorem exec_append (start : StartResult) (events : List Event) (p : Process)
    (s1 s2 : List Turn) :
    p.exec start events (s1 ++ s2) = (p.exec start events s1).exec start events s2 := by
  simp [Process.exec, List.foldl_append]

theorem run_rank_turn (start : StartResult) (events : List Event) (err : Option Error)
    (cause : Terminal) (recovered : Bool) (p : Process) (t : Turn)
    (hret : (p.runner.Run start .open events).status = .returned err cause recovered)
    (h : p.Sound err) :
    min 2 (p.run.rank + (if t = .run then 1 else 0)) ≤ (p.turn start events t).run.rank := by
  cases t with
  | wait => simp [Process.turn, Process.Wait]
  | waiter j => simp [Process.turn, Process.Wait]
  | run =>
    simp only [Process.turn, Process.Wait, Process.Run, if_true]
    cases hpc : p.run with
    | call => simp [hret, RunPc.rank]
    | close =>
      have h1 := h.1
      rw [hpc] at h1
      simp [h1.1, Chan.close, RunPc.rank]
    | done => simp [hpc, RunPc.rank]

theorem run_rank_exec (start : StartResult) (events : List Event) (err : Option Error)
    (cause : Terminal) (recovered : Bool) (schedule : List Turn) (p : Process)
    (hret : (p.runner.Run start .open events).status = .returned err cause recovered)
    (h : p.Sound err) :
    min 2 (p.run.rank + schedule.count .run) ≤ (p.exec start events schedule).run.rank := by
  induction schedule generalizing p with
  | nil => simp [Process.exec]
  | cons t ts ih =>
    have ht := sound_turn start events err cause recovered p t hret h
    have hr := run_rank_turn start events err cause recovered p t hret h
    have := ih (p.turn start events t) (by rw [ht.2]; exact hret) ht.1
    simp only [Process.exec, List.foldl_cons] at this ⊢
    by_cases htr : t = .run
    · simp only [htr, if_true] at hr
      subst htr
      simp only [List.count_cons_self]
      omega
    · simp only [htr, if_false] at hr
      have hc : List.count Turn.run (t :: ts) = List.count Turn.run ts := by
        rw [List.count_cons]
        simp [htr]
      rw [hc]
      omega

theorem rank_done (pc : RunPc) (h : 2 ≤ pc.rank) : pc = .done := by
  cases pc <;> simp [RunPc.rank] at h ⊢

theorem wait_rank_turn (start : StartResult) (events : List Event) (p : Process) (t : Turn)
    (i : Nat) (hdone : p.run = .done) (hclosed : p.exited = .closed)
    (hi : i < p.waiters.length) :
    (p.turn start events t).run = .done ∧ (p.turn start events t).exited = .closed ∧
    i < (p.turn start events t).waiters.length ∧
    min 2 (p.waitRank i + (if t = .waiter i then 1 else 0))
      ≤ (p.turn start events t).waitRank i := by
  cases t with
  | run =>
    simp [Process.turn, Process.Wait, Process.Run, hdone, hclosed, hi]
  | wait =>
    simp only [Process.turn, Process.Wait, hdone, hclosed, List.length_append, List.length_singleton,
      reduceCtorEq, if_false, Nat.add_zero, true_and, Process.waitRank]
    refine ⟨by omega, ?_⟩
    rw [List.getElem?_append_left hi]
    omega
  | waiter j =>
    simp only [Process.turn, hdone, hclosed, List.length_modify, hi, true_and,
      Process.waitRank, List.getElem?_modify, Turn.waiter.injEq]
    have hget : p.waiters[i]? = some p.waiters[i] := List.getElem?_eq_getElem hi
    rw [hget]
    by_cases hji : j = i
    · simp only [hji, if_true, Option.map_eq_map, Option.map_some']
      unfold Waiter.turn
      cases hpc : p.waiters[i].pc <;> simp [hclosed, WaitPc.rank, hpc]
    · simp only [hji, if_false, Option.map_eq_map, Option.map_some', Nat.add_zero]
      omega

theorem wait_rank_exec (start : StartResult) (events : List Event) (schedule : List Turn)
    (p : Process) (i : Nat) (hdone : p.run = .done) (hclosed : p.exited = .closed)
    (hi : i < p.waiters.length) :
    min 2 (p.waitRank i + schedule.count (.waiter i))
      ≤ (p.exec start events schedule).waitRank i := by
  induction schedule generalizing p with
  | nil => simp [Process.exec]
  | cons t ts ih =>
    obtain ⟨h1, h2, h3, h4⟩ := wait_rank_turn start events p t i hdone hclosed hi
    have := ih (p.turn start events t) h1 h2 h3
    simp only [Process.exec, List.foldl_cons] at this ⊢
    by_cases htr : t = .waiter i
    · simp only [htr, if_true] at h4
      subst htr
      simp only [List.count_cons_self]
      omega
    · simp only [htr, if_false] at h4
      have hc : List.count (Turn.waiter i) (t :: ts) = List.count (Turn.waiter i) ts := by
        rw [List.count_cons]
        simp [htr]
      rw [hc]
      omega

theorem length_waiters_exec (start : StartResult) (events : List Event)
    (schedule : List Turn) (p : Process) :
    p.waiters.length ≤ (p.exec start events schedule).waiters.length := by
  induction schedule generalizing p with
  | nil => simp [Process.exec]
  | cons t ts ih =>
    have := ih (p.turn start events t)
    simp only [Process.exec, List.foldl_cons] at this ⊢
    refine Nat.le_trans ?_ this
    cases t with
    | run =>
      simp only [Process.turn, Process.Wait, Process.Run]
      cases p.run with
      | call => cases (p.runner.Run start Chan.open events).status <;> simp
      | close => cases p.exited.close <;> simp
      | done => simp
    | wait => simp [Process.turn, Process.Wait]
    | waiter j => simp [Process.turn, Process.Wait]

theorem length_waiters_count (start : StartResult) (events : List Event)
    (schedule : List Turn) (p : Process) :
    (p.exec start events schedule).waiters.length
      = p.waiters.length + schedule.count .wait := by
  induction schedule generalizing p with
  | nil => simp [Process.exec]
  | cons t ts ih =>
    have := ih (p.turn start events t)
    simp only [Process.exec, List.foldl_cons] at this ⊢
    rw [this]
    cases t with
    | run =>
      have hc : List.count Turn.wait (Turn.run :: ts) = List.count Turn.wait ts := by
        rw [List.count_cons]
        simp
      rw [hc]
      simp only [Process.turn, Process.Run]
      cases p.run with
      | call => cases (p.runner.Run start Chan.open events).status <;> simp
      | close => cases p.exited.close <;> simp
      | done => simp
    | wait =>
      simp only [Process.turn, Process.Wait, List.length_append, List.length_singleton,
        List.count_cons_self]
      omega
    | waiter j =>
      have hc : List.count Turn.wait (Turn.waiter j :: ts) = List.count Turn.wait ts := by
        rw [List.count_cons]
        simp
      rw [hc]
      simp [Process.turn]

/-! ## The claim on `Process` -/

/-- C8: let `Runner.Run` return `err` on the events of the process.  Under every
schedule of the goroutines of the handle: the writes on the shared fields are a
prefix of "write `err` to `status`, then close `exited`", so that the status
is written at most once, with the value that `Run` returned, before `exited`
is closed, and `exited` is closed at most once; whenever `exited` is closed
the status is `err` and both writes have happened.  Every call of `Wait` has
returned a channel of its own (there are as many channels as calls, numbered
in the order of the calls, and a call made now returns a new channel on which
nothing has been sent); a channel has received nothing, or it has received
`err` once and `exited` is closed.  Moreover, as soon as the goroutine of
`Process.Run` has been scheduled twice more both writes have happened, and
once the goroutine of a call of `Wait` (made before or after the exit) has been
scheduled twice after that, the channel of this call has received `err`,
exactly once. -/
theorem status_written_before_exited (runner : Runner) (start : StartResult)
    (events : List Event) (err : Option Error) (cause : Terminal) (recovered : Bool)
    (schedule : List Turn)
    (hret : (runner.Run start .open events).status = .returned err cause recovered) :
    (launched runner start events schedule).writes
      <+: [Write.status err, Write.closeExited] ∧
    ((launched runner start events schedule).exited = .closed →
      (launched runner start events schedule).status = err ∧
      (launched runner start events schedule).writes
        = [Write.status err, Write.closeExited]) ∧
    (launched runner start events schedule).waiters.length = schedule.count .wait ∧
    (launched runner start events (schedule ++ [.wait])).waiters[schedule.count .wait]?
      = some { pc := .receive, exit := [] } ∧
    (∀ (i : Nat) (w : Waiter),
      (launched runner start events schedule).waiters[i]? = some w →
        w.exit = [] ∨
        (w.exit = [err] ∧ (launched runner start events schedule).exited = .closed)) ∧
    (∀ more : List Turn, 2 ≤ more.count .run →
      (launched runner start events (schedule ++ more)).exited = .closed ∧
      (launched runner start events (schedule ++ more)).status = err ∧
      (launched runner start events (schedule ++ more)).writes
        = [Write.status err, Write.closeExited]) ∧
    (∀ (i : Nat) (more later : List Turn),
      i < schedule.count .wait →
      2 ≤ more.count .run → 2 ≤ later.count (.waiter i) →
      ∃ w, (launched runner start events (schedule ++ more ++ later)).waiters[i]? = some w ∧
        w.exit = [err]) := by
  have hcount : ∀ sched : List Turn,
      (launched runner start events sched).waiters.length = sched.count .wait := by
    intro sched
    have := length_waiters_count start events sched (Background runner)
    simpa [launched, Background] using this
  have hsound : ∀ sched : List Turn,
      (launched runner start events sched).Sound err ∧
      (launched runner start events sched).runner = runner := fun sched =>
    sound_exec start events err cause recovered sched (Background runner) hret
      (sound_Background err runner)
  have hdone : ∀ more : List Turn, 2 ≤ more.count .run →
      (launched runner start events (schedule ++ more)).run = .done := by
    intro more hmore
    have h1 := hsound schedule
    have := run_rank_exec start events err cause recovered more
      (launched runner start events schedule) (by rw [h1.2]; exact hret) h1.1
    apply rank_done
    simp only [launched, exec_append] at this ⊢
    omega
  have hfull : ∀ sched : List Turn, (launched runner start events sched).run = .done →
      (launched runner start events sched).exited = .closed ∧
      (launched runner start events sched).status = err ∧
      (launched runner start events sched).writes
        = [Write.status err, Write.closeExited] := by
    intro sched hd
    have h1 := (hsound sched).1.1
    rw [hd] at h1
    exact h1
  refine ⟨?_, ?_, hcount schedule, ?_, ?_, ?_, ?_⟩
  · have h1 := (hsound schedule).1.1
    cases hpc : (launched runner start events schedule).run with
    | call =>
      rw [hpc] at h1
      rw [h1.2]
      exact List.nil_prefix
    | close =>
      rw [hpc] at h1
      rw [h1.2.2]
      exact ⟨[Write.closeExited], rfl⟩
    | done =>
      rw [hpc] at h1
      rw [h1.2.2]
  · intro hclosed
    have h1 := (hsound schedule).1.1
    cases hpc : (launched runner start events schedule).run with
    | call =>
      rw [hpc] at h1
      rw [h1.1] at hclosed
      simp at hclosed
    | close =>
      rw [hpc] at h1
      rw [h1.1] at hclosed
      simp at hclosed
    | done =>
      rw [hpc] at h1
      exact h1.2
  · have hlen := hcount schedule
    have hstep : launched runner start events (schedule ++ [.wait])
        = (launched runner start events schedule).Wait := by
      simp [launched, exec_append, Process.exec, Process.turn]
    rw [hstep, ← hlen]
    simp [Process.Wait]
  · intro i w hw
    have h1 := (hsound schedule).1
    have h2 := h1.2 i w hw
    unfold Waiter.Sound at h2
    cases hpc : w.pc with
    | receive =>
      rw [hpc] at h2
      exact Or.inl h2
    | send =>
      rw [hpc] at h2
      exact Or.inl h2.1
    | done =>
      rw [hpc] at h2
      right
      have h3 := h1.1
      cases hrun : (launched runner start events schedule).run with
      | call =>
        rw [hrun] at h3
        rw [h3.1] at h2
        simp at h2
      | close =>
        rw [hrun] at h3
        rw [h3.1] at h2
        simp at h2
      | done =>
        rw [hrun] at h3
        rw [h3.2.1] at h2
        exact h2
  · intro more hmore
    exact hfull _ (hdone more hmore)
  · intro i more later hi hmore hlater
    rw [← hcount schedule] at hi
    have hd := hdone more hmore
    have hf := hfull _ hd
    have hlen : i < (launched runner start events (schedule ++ more)).waiters.length := by
      have := length_waiters_exec start events more (launched runner start events schedule)
      simp only [launched, exec_append] at this hi ⊢
      omega
    have hrank := wait_rank_exec start events later
      (launched runner start events (schedule ++ more)) i hd hf.1 hlen
    have hs := hsound (schedule ++ more ++ later)
    have hfinal : launched runner start events (schedule ++ more ++ later)
        = (launched runner start events (schedule ++ more)).exec start events later := by
      simp only [launched, exec_append]
    rw [← hfinal] at hrank
    have hd2 : (launched runner start events (schedule ++ more ++ later)).run = .done := by
      have := hdone (more ++ later) (by rw [List.count_append]; omega)
      rwa [← List.append_assoc] at this
    have hf2 := hfull _ hd2
    unfold Process.waitRank at hrank
    cases hget : (launched runner start events (schedule ++ more ++ later)).waiters[i]? with
    | none =>
      rw [hget] at hrank
      dsimp only at hrank
      omega
    | some w =>
      rw [hget] at hrank
      dsimp only at hrank
      refine ⟨w, rfl, ?_⟩
      have hw := hs.1.2 i w hget
      unfold Waiter.Sound at hw
      cases hpc : w.pc with
      | receive =>
        rw [hpc] at hrank
        simp [WaitPc.rank] at hrank
        omega
      | send =>
        rw [hpc] at hrank
        simp [WaitPc.rank] at hrank
        omega
      | done =>
        rw [hpc] at hw
        rw [hw.1, hf2.2.1]

/-- An instance of `status_written_before_exited`: a run that ends with exit code
3 and two calls of `Wait`, one before `Process.Run` has written the status and
one after `exited` is closed; once the goroutines have been scheduled the
channel of the second call has received the error of exit code 3. -/
theorem status_written_before_exited_witness :
    (service.Run (.started "/bin/svc" 42) .open
        [.detected, .processExits 3, .exited]).status
      = .returned (some (.exitStatus 3)) .exited false ∧
    ∃ w, (launched service (.started "/bin/svc" 42) [.detected, .processExits 3, .exited]
        ([.wait, .run, .waiter 0, .run, .wait] ++ [.run, .waiter 0, .run]
          ++ [.waiter 1, .waiter 0, .waiter 1])).waiters[1]? = some w ∧
      w.exit = [some (.exitStatus 3)] :=
  ⟨by decide,
   (status_written_before_exited service (.started "/bin/svc" 42)
      [.detected, .processExits 3, .exited] (some (.exitStatus 3)) .exited false
      [.wait, .run, .waiter 0, .run, .wait] (by decide)).2.2.2.2.2.2 1
      [.run, .waiter 0, .run] [.waiter 1, .waiter 0, .waiter 1]
      (by decide) (by decide) (by decide)⟩

end Gmonit
